import Mathlib

/-! lslpub_XsensRaw: closest update rate, packet queues, connectivity registry, streaming loop.

A shallow embedding of `src/main.cpp` and of the two callback classes declared in
`include/callback.hpp`, with the properties of the specification proved about it.
-/

namespace XsensRaw

/-! ## `findClosestUpdateRate` (main.cpp, lines 27-49) -/

/-- The value a 32-bit two's-complement `int` holds for the integer `x`: `x` itself when
`-2^31 ≤ x < 2^31`, wrapped around otherwise. -/
def wrapInt32 (x : Int) : Int :=
  (x + 2 ^ 31) % 2 ^ 32 - 2 ^ 31

/-- Body of the `for` loop of `findClosestUpdateRate`: the state is the pair
`(uRateDist, closestUpdateRate)`, `rate` is `*itUpRate`. Line 40 computes
`std::abs(*itUpRate - desiredUpdateRate)` in `int`: the subtraction and the absolute value
are each taken in 32 bits. -/
def closestStep (desiredUpdateRate : Int) (st : Int × Int) (rate : Int) : Int × Int :=
  let currDist := wrapInt32 |wrapInt32 (rate - desiredUpdateRate)|
  if st.1 = -1 ∨ currDist < st.1 then (currDist, rate) else st

/-- The function `findClosestUpdateRate` of main.cpp; the rates are `int` values. -/
def findClosestUpdateRate (supportedUpdateRates : List Int) (desiredUpdateRate : Int) : Int :=
  match supportedUpdateRates with
  | [] => 0
  | [only] => only
  | _ => (supportedUpdateRates.foldl (closestStep desiredUpdateRate) (-1, -1)).2

/-- The difference `rate - desired` and its absolute value are computed exactly by 32-bit
`int` arithmetic: `|rate - desired| < 2^31`. -/
def DiffExact (desiredUpdateRate rate : Int) : Prop :=
  |rate - desiredUpdateRate| < 2 ^ 31

/-- The value `c` sits at index `i` of `l`, no element of `l` is closer to `d` than `c`,
and every element before index `i` is strictly farther from `d`: `i` is the least index
at which the minimal distance is attained. -/
def FirstClosest (d : Int) (l : List Int) (i : Nat) (c : Int) : Prop :=
  l[i]? = some c ∧ (∀ s ∈ l, |c - d| ≤ |s - d|) ∧ (∀ s ∈ l.take i, |c - d| < |s - d|)

/-! ## Per-sensor packet queue `MtwCallback` (callback.hpp, lines 48-64) -/

/-- Euler angles `XsEuler` of the device interface: `roll()`, `pitch()`, `yaw()` over a
type `α` of angle values (`XsReal`). -/
structure XsEuler (α : Type) where
  roll : α
  pitch : α
  yaw : α
deriving DecidableEq

/-- A data packet `XsDataPacket`, seen through `orientationEuler()`, the one accessor the
program calls. -/
structure XsDataPacket (α : Type) where
  orientationEuler : XsEuler α
deriving DecidableEq

/-- The class `MtwCallback` of callback.hpp, with its field `m_packetBuffer`
(`std::list<XsDataPacket>`, oldest packet first). The fields `m_mtwIndex` and `m_device`
serve console output only and are left out. -/
structure MtwCallback (α : Type) where
  m_packetBuffer : List (XsDataPacket α)
deriving DecidableEq

/-- Modelled from the spec: the body of `MtwCallback::onLiveDataAvailable` (only declared in
callback.hpp). Section 4.2, `push(sample)`: "Appends to the tail", never drops. -/
def MtwCallback.onLiveDataAvailable {α : Type} (cb : MtwCallback α) (packet : XsDataPacket α) :
    MtwCallback α :=
  ⟨cb.m_packetBuffer ++ [packet]⟩

/-- Modelled from the spec: the body of `MtwCallback::dataAvailable` (only declared in
callback.hpp). Section 4.2, `hasData()`: "true iff the queue is non-empty". -/
def MtwCallback.dataAvailable {α : Type} (cb : MtwCallback α) : Bool :=
  !cb.m_packetBuffer.isEmpty

/-- Modelled from the spec: the body of `MtwCallback::getOldestPacket` (only declared in
callback.hpp). Section 4.2, `peekOldest()`: "returns a reference to the head sample without
removing it; fails (returns an empty/null result) if the queue is empty". -/
def MtwCallback.getOldestPacket {α : Type} (cb : MtwCallback α) : Option (XsDataPacket α) :=
  cb.m_packetBuffer.head?

/-- Modelled from the spec: the body of `MtwCallback::deleteOldestPacket` (only declared in
callback.hpp). Section 4.2, `popOldest()`: "removes and discards the head sample; no-op ...
if empty". -/
def MtwCallback.deleteOldestPacket {α : Type} (cb : MtwCallback α) : MtwCallback α :=
  ⟨cb.m_packetBuffer.tail⟩

/-- A sequence of `onLiveDataAvailable` calls, in order. -/
def MtwCallback.pushAll {α : Type} (cb : MtwCallback α) (packets : List (XsDataPacket α)) :
    MtwCallback α :=
  packets.foldl MtwCallback.onLiveDataAvailable cb

/-- At most `n` successive read-and-advance steps (`getOldestPacket` then
`deleteOldestPacket`, as in lines 243-245 of main.cpp), stopping at an empty queue: the
packets read, in the order read, and the queue left. -/
def MtwCallback.drain {α : Type} : Nat → MtwCallback α → List (XsDataPacket α) × MtwCallback α
  | 0, cb => ([], cb)
  | n + 1, cb =>
    match cb.getOldestPacket with
    | none => ([], cb)
    | some packet =>
      let r := MtwCallback.drain n cb.deleteOldestPacket
      (packet :: r.1, r.2)

/-- One call on a packet queue: a push by the producer or a pop by the consumer. -/
inductive QueueCall (α : Type) where
  | push (packet : XsDataPacket α)
  | pop

/-- A queue together with the history of the calls made on it since creation: the packets
pushed and the packets removed by successful pops, both oldest first. -/
structure QueueTrace (α : Type) where
  queue : MtwCallback α
  pushed : List (XsDataPacket α)
  popped : List (XsDataPacket α)

/-- Applies one call. A pop is successful when `getOldestPacket` finds a packet; on an empty
queue `deleteOldestPacket` is still applied and nothing is counted. -/
def QueueTrace.call {α : Type} (t : QueueTrace α) : QueueCall α → QueueTrace α
  | QueueCall.push packet => ⟨t.queue.onLiveDataAvailable packet, t.pushed ++ [packet], t.popped⟩
  | QueueCall.pop =>
    match t.queue.getOldestPacket with
    | some packet => ⟨t.queue.deleteOldestPacket, t.pushed, t.popped ++ [packet]⟩
    | none => ⟨t.queue.deleteOldestPacket, t.pushed, t.popped⟩

/-- Applies a sequence of calls to a freshly created (empty) queue. -/
def QueueTrace.run {α : Type} (calls : List (QueueCall α)) : QueueTrace α :=
  calls.foldl QueueTrace.call ⟨⟨[]⟩, [], []⟩

/-! ## Connectivity registry `WirelessMasterCallback` (callback.hpp, lines 25-40) -/

/-- Modelled from the spec: the connectivity states of the device interface
(`XsConnectivityState`, declared outside the repository). Section 3: "connected" adds, "any
non-connected state removes"; the non-connected states are `Disconnected` and any further
state `Other code`. -/
inductive XsConnectivityState where
  | Connected
  | Disconnected
  | Other (code : Nat)
deriving DecidableEq

/-- The class `WirelessMasterCallback` of callback.hpp, with its field `m_connectedMTWs`
(`XsDeviceSet`, a `std::set` of device handles of type `δ`). -/
structure WirelessMasterCallback (δ : Type) where
  m_connectedMTWs : Finset δ

/-- Modelled from the spec: the body of `WirelessMasterCallback::onConnectivityChanged` (only
declared in callback.hpp). Section 4.1, `notify`: "If `newState == Connected`, inserts
`device` into the set (idempotent if already present); otherwise removes it (no-op if
absent)." -/
def WirelessMasterCallback.onConnectivityChanged {δ : Type} [DecidableEq δ]
    (cb : WirelessMasterCallback δ) (dev : δ) (newState : XsConnectivityState) :
    WirelessMasterCallback δ :=
  if newState = XsConnectivityState.Connected then ⟨insert dev cb.m_connectedMTWs⟩
  else ⟨cb.m_connectedMTWs.erase dev⟩

/-- Modelled from the spec: the body of `WirelessMasterCallback::getWirelessMTWs` (only
declared in callback.hpp). Section 4.1, `snapshot()`: "returns a copy of the current member
set". -/
def WirelessMasterCallback.getWirelessMTWs {δ : Type} (cb : WirelessMasterCallback δ) :
    Finset δ :=
  cb.m_connectedMTWs

/-- The notifications, serialised by the registry's lock in the order given, applied one
after the other. -/
def WirelessMasterCallback.notifyAll {δ : Type} [DecidableEq δ] (cb : WirelessMasterCallback δ)
    (notifications : List (δ × XsConnectivityState)) : WirelessMasterCallback δ :=
  notifications.foldl (fun c n => c.onConnectivityChanged n.1 n.2) cb

/-- The state of the last notification of the sequence that concerns `dev`, if any. -/
def lastNotified {δ : Type} [DecidableEq δ] (dev : δ) :
    List (δ × XsConnectivityState) → Option XsConnectivityState
  | [] => none
  | n :: rest =>
    match lastNotified dev rest with
    | some st => some st
    | none => if n.1 = dev then some n.2 else none

/-! ## The streaming loop of `main` (main.cpp, lines 20-24 and 226-275) -/

/-- The constant `nbchannels` of main.cpp, line 20. -/
def nbchannels : Nat := 3 * 18

/-- The struct `EEG_chunk` of main.cpp: `float channel[nbchannels]`, over a type `β` of
channel values. The width of the array is the length of the list. -/
structure EEG_chunk (β : Type) where
  channel : List β
deriving DecidableEq

/-- The variables of the streaming loop: `mtwCallbacks`, `eulerData`, `mychunk`,
`printCounter` (an `unsigned int`), and the batches handed so far to
`outlet.push_chunk_numeric_structs`, oldest first. -/
structure LoopState (α β : Type) where
  mtwCallbacks : List (MtwCallback α)
  eulerData : List (XsEuler α)
  mychunk : List (EEG_chunk β)
  printCounter : Nat
  flushed : List (List (EEG_chunk β))
deriving DecidableEq

/-- The state at the entry of the `while` loop (lines 226-233): `mychunk(25)` with every
channel value-initialised to `zero`, `eulerData(mtwCallbacks.size())` holding the default
angles `euler0`, `printCounter = 0`, nothing flushed. -/
def LoopState.init {α β : Type} (mtwCallbacks : List (MtwCallback α)) (euler0 : XsEuler α)
    (zero : β) : LoopState α β :=
  { mtwCallbacks := mtwCallbacks
    eulerData := List.replicate mtwCallbacks.length euler0
    mychunk := List.replicate 25 ⟨List.replicate nbchannels zero⟩
    printCounter := 0
    flushed := [] }

/-- What lines 226 and 232 establish and the loop keeps: `eulerData` has one entry per
sensor, `mychunk` has 25 rows of `nbchannels` channels, `printCounter` fits an
`unsigned int`. -/
def LoopState.WF {α β : Type} (s : LoopState α β) : Prop :=
  s.eulerData.length = s.mtwCallbacks.length ∧ s.mychunk.length = 25 ∧
    (∀ row ∈ s.mychunk, row.channel.length = nbchannels) ∧ s.printCounter < 2 ^ 32

/-- A counted loop `for (i = start; i < start + count; ++i) body`, where the body may fault
(an access outside an array); a fault ends the run with `none`. -/
def forLoop {σ : Type} (body : Nat → σ → Option σ) : Nat → Nat → σ → Option σ
  | _, 0, st => some st
  | start, count + 1, st => (body start st).bind (forLoop body (start + 1) count)

/-- The member functions of `MtwCallback` that the polling loop calls. -/
inductive MtwCall where
  | dataAvailable
  | getOldestPacket
  | deleteOldestPacket
deriving DecidableEq

/-- The variables of the polling loop of lines 237-247, and `calls`, the record of the
member functions called so far in the tick: each entry is the index of the sensor and the
function called on `mtwCallbacks[i]`, in the order of the calls. -/
structure PollState (α : Type) where
  newDataAvailable : Bool
  mtwCallbacks : List (MtwCallback α)
  eulerData : List (XsEuler α)
  calls : List (Nat × MtwCall)
deriving DecidableEq

/-- Body of the polling loop (lines 240-246) for sensor `i`: `dataAvailable` is called
(line 240) and, only when it returns true, `getOldestPacket` (line 243) and then
`deleteOldestPacket` (line 245). -/
def pollSensor {α : Type} (i : Nat) (st : PollState α) : Option (PollState α) :=
  match st.mtwCallbacks[i]? with
  | none => none
  | some cb =>
    if cb.dataAvailable then
      match cb.getOldestPacket with
      | none => none
      | some packet =>
        if i < st.eulerData.length then
          some { newDataAvailable := true
                 mtwCallbacks := st.mtwCallbacks.set i cb.deleteOldestPacket
                 eulerData := st.eulerData.set i packet.orientationEuler
                 calls := st.calls ++ [(i, MtwCall.dataAvailable), (i, MtwCall.getOldestPacket),
                   (i, MtwCall.deleteOldestPacket)] }
        else none
    else
      some { newDataAvailable := st.newDataAvailable
             mtwCallbacks := st.mtwCallbacks
             eulerData := st.eulerData
             calls := st.calls ++ [(i, MtwCall.dataAvailable)] }

/-- The polling loop of lines 237-247 over all sensors. -/
def pollSensors {α β : Type} (s : LoopState α β) : Option (PollState α) :=
  forLoop pollSensor 0 s.mtwCallbacks.length
    { newDataAvailable := false, mtwCallbacks := s.mtwCallbacks, eulerData := s.eulerData,
      calls := [] }

/-- The member functions called on sensor `i` according to the record `calls`, in the order
of the calls. -/
def callsOn (i : Nat) (calls : List (Nat × MtwCall)) : List MtwCall :=
  (calls.filter (fun c => decide (c.1 = i))).map (fun c => c.2)

/-- The assignment `mychunk[row].channel[idx] = v`; `none` when `row` or `idx` lies outside
the array it indexes. -/
def writeChannel {β : Type} (mychunk : List (EEG_chunk β)) (row idx : Nat) (v : β) :
    Option (List (EEG_chunk β)) :=
  match mychunk[row]? with
  | none => none
  | some r =>
    if idx < r.channel.length then some (mychunk.set row ⟨r.channel.set idx v⟩) else none

/-- Body of the recording loop (lines 253-255) for sensor `i`; `narrow` is the implicit
conversion of an angle value to a `float` channel. -/
def recordSensor {α β : Type} (narrow : α → β) (eulerData : List (XsEuler α))
    (printCounter : Nat) (i : Nat) (mychunk : List (EEG_chunk β)) :
    Option (List (EEG_chunk β)) :=
  match eulerData[i]? with
  | none => none
  | some e =>
    (writeChannel mychunk (printCounter % 25) (0 + i * 3) (narrow e.roll)).bind fun c1 =>
    (writeChannel c1 (printCounter % 25) (1 + i * 3) (narrow e.pitch)).bind fun c2 =>
    writeChannel c2 (printCounter % 25) (2 + i * 3) (narrow e.yaw)

/-- The recording loop of lines 251-256 over all `n` sensors. -/
def recordSensors {α β : Type} (narrow : α → β) (eulerData : List (XsEuler α))
    (printCounter : Nat) (n : Nat) (mychunk : List (EEG_chunk β)) :
    Option (List (EEG_chunk β)) :=
  forLoop (recordSensor narrow eulerData printCounter) 0 n mychunk

/-- One iteration ("tick") of the `while` loop, lines 235-273: poll every sensor; when new
data arrived, write the record, flush when `printCounter % 25 == 0`, and increment
`printCounter`. The console output is not modelled. -/
def tick {α β : Type} (narrow : α → β) (s : LoopState α β) : Option (LoopState α β) :=
  match pollSensors s with
  | none => none
  | some p =>
    if p.newDataAvailable then
      match recordSensors narrow p.eulerData s.printCounter p.mtwCallbacks.length s.mychunk with
      | none => none
      | some chunk =>
        some { mtwCallbacks := p.mtwCallbacks
               eulerData := p.eulerData
               mychunk := chunk
               printCounter := (s.printCounter + 1) % 2 ^ 32
               flushed := if s.printCounter % 25 = 0 then s.flushed ++ [chunk] else s.flushed }
    else
      some { mtwCallbacks := p.mtwCallbacks
             eulerData := p.eulerData
             mychunk := s.mychunk
             printCounter := s.printCounter
             flushed := s.flushed }

/-- The latest value of a sensor after a tick: the angles of the head packet of its queue
when the queue has data, its stored value `old` otherwise. -/
def latestEuler {α : Type} (cb : MtwCallback α) (old : XsEuler α) : XsEuler α :=
  match cb.m_packetBuffer with
  | [] => old
  | packet :: _ => packet.orientationEuler

/-- The producers deliver one packet to each sensor's queue: `packets[i]` goes to sensor
`i`. -/
def deliver {α : Type} (mtwCallbacks : List (MtwCallback α)) (packets : List (XsDataPacket α)) :
    List (MtwCallback α) :=
  List.zipWith MtwCallback.onLiveDataAvailable mtwCallbacks packets

/-- Runs `count` ticks numbered `0 .. count - 1`; before tick `t` every sensor `i` receives
the packet `(samples t)[i]`. -/
def runTicks {α β : Type} (narrow : α → β) (samples : Nat → List (XsDataPacket α)) :
    Nat → LoopState α β → Option (LoopState α β)
  | 0, s => some s
  | count + 1, s =>
    (runTicks narrow samples count s).bind fun s1 =>
      tick narrow { s1 with mtwCallbacks := deliver s1.mtwCallbacks (samples count) }

/-! ## Loop invariants -/

/-- Invariant of the polling loop after the sensors `0 .. m - 1` have been visited, for the
queues `cbs` and stored values `euler` at the start of the tick: the queues and stored
values of the sensors visited, the flag `newDataAvailable`, and the calls made on each
sensor. -/
def PollInv {α : Type} (cbs : List (MtwCallback α)) (euler : List (XsEuler α)) (m : Nat)
    (p : PollState α) : Prop :=
  p.mtwCallbacks.length = cbs.length ∧ p.eulerData.length = euler.length ∧
  (∀ (j : Nat) (cb : MtwCallback α), cbs[j]? = some cb →
    p.mtwCallbacks[j]? = some (if j < m ∧ cb.dataAvailable = true then cb.deleteOldestPacket else cb)) ∧
  (∀ (j : Nat) (cb : MtwCallback α) (e : XsEuler α), cbs[j]? = some cb → euler[j]? = some e →
    p.eulerData[j]? = some (if j < m then latestEuler cb e else e)) ∧
  (p.newDataAvailable = true ↔
    ∃ (j : Nat) (cb : MtwCallback α), j < m ∧ cbs[j]? = some cb ∧ cb.dataAvailable = true) ∧
  (∀ (j : Nat) (cb : MtwCallback α), cbs[j]? = some cb →
    callsOn j p.calls =
      if j < m then
        (if cb.dataAvailable = true then
          [MtwCall.dataAvailable, MtwCall.getOldestPacket, MtwCall.deleteOldestPacket]
        else [MtwCall.dataAvailable])
      else [])

/-- Invariant of the recording loop after the sensors `0 .. m - 1` have been written into
row `r` of the batch, which started as `chunk0` with row `r` equal to `row0`: the other rows
are untouched, row `r` keeps its width, holds the three angles of every sensor below `m` in
channels `3i`, `3i+1`, `3i+2`, and is untouched from channel `3m` on. -/
def RecInv {α β : Type} (narrow : α → β) (euler : List (XsEuler α)) (r : Nat)
    (chunk0 : List (EEG_chunk β)) (row0 : EEG_chunk β) (m : Nat) (chunk : List (EEG_chunk β)) :
    Prop :=
  chunk.length = chunk0.length ∧ (∀ q : Nat, q ≠ r → chunk[q]? = chunk0[q]?) ∧
  ∃ row : EEG_chunk β, chunk[r]? = some row ∧ row.channel.length = row0.channel.length ∧
    (∀ (i : Nat) (e : XsEuler α), i < m → euler[i]? = some e →
      row.channel[0 + i * 3]? = some (narrow e.roll) ∧
      row.channel[1 + i * 3]? = some (narrow e.pitch) ∧
      row.channel[2 + i * 3]? = some (narrow e.yaw)) ∧
    (∀ c : Nat, m * 3 ≤ c → row.channel[c]? = row0.channel[c]?)

/-! ## Concrete states and sample streams -/

/-- The packet of sensor `i` at tick `t` of the three-sensor scenario: roll, pitch and yaw
are `100 t + 10 i + 1`, `100 t + 10 i + 2` and `100 t + 10 i + 3`. -/
def scenarioPacket (t i : Nat) : XsDataPacket Int :=
  ⟨⟨100 * t + 10 * i + 1, 100 * t + 10 * i + 2, 100 * t + 10 * i + 3⟩⟩

/-- The three-sensor scenario: at tick `t` each of the sensors 0, 1, 2 receives one packet. -/
def scenarioSamples (t : Nat) : List (XsDataPacket Int) :=
  [scenarioPacket t 0, scenarioPacket t 1, scenarioPacket t 2]

/-- The loop entry state of the three-sensor scenario: three empty queues. -/
def scenarioStart : LoopState Int Int :=
  LoopState.init [⟨[]⟩, ⟨[]⟩, ⟨[]⟩] ⟨0, 0, 0⟩ 0

/-- The record of tick `t` of the three-sensor scenario: the angles of the three packets of
that tick in channels 0 to 8, zero in the 45 channels no sensor writes. -/
def scenarioRow (t : Nat) : EEG_chunk Int :=
  ⟨(scenarioSamples t).flatMap
      (fun p => [p.orientationEuler.roll, p.orientationEuler.pitch, p.orientationEuler.yaw]) ++
    List.replicate 45 0⟩

/-- A row of the batch as `mychunk(25)` creates it: every channel zero. -/
def zeroRow : EEG_chunk Int := ⟨List.replicate nbchannels 0⟩

/-- A loop entry state with three sensors, of which sensors 0 and 2 have one packet queued
and sensor 1 has none. -/
def mixedState : LoopState Int Int :=
  LoopState.init [⟨[scenarioPacket 0 0]⟩, ⟨[]⟩, ⟨[scenarioPacket 0 2]⟩] ⟨0, 0, 0⟩ 0

/-- A loop entry state with 19 sensors, each with one packet queued. -/
def overfullState : LoopState Int Int :=
  LoopState.init (List.replicate 19 ⟨[scenarioPacket 0 0]⟩) ⟨0, 0, 0⟩ 0

/-- A state with one sensor, one packet queued, and `printCounter` at the largest value of
an `unsigned int`. -/
def wrapState : LoopState Int Int :=
  { mtwCallbacks := [⟨[scenarioPacket 0 0]⟩]
    eulerData := [⟨0, 0, 0⟩]
    mychunk := List.replicate 25 zeroRow
    printCounter := 2 ^ 32 - 1
    flushed := [] }

/-! ### Lemmas on the selection loop -/

theorem wrapInt32_exact (x : Int) (h : |x| < 2 ^ 31) : wrapInt32 x = x := by
  have h1 := abs_lt.1 h
  obtain ⟨ha, hb⟩ := h1
  norm_num at ha hb
  unfold wrapInt32
  norm_num
  omega

/-- Where the difference is exact, line 40 computes the true absolute distance. -/
theorem currDist_exact (d r : Int) (h : DiffExact d r) :
    wrapInt32 |wrapInt32 (r - d)| = |r - d| := by
  unfold DiffExact at h
  rw [wrapInt32_exact (r - d) h]
  apply wrapInt32_exact
  rw [abs_abs]
  exact h

theorem closestStep_first (d r : Int) (hr : DiffExact d r) :
    closestStep d (-1, -1) r = (|r - d|, r) := by
  simp [closestStep, currDist_exact d r hr]

theorem closestStep_closer (d c r : Int) (hr : DiffExact d r) (h : |r - d| < |c - d|) :
    closestStep d (|c - d|, c) r = (|r - d|, r) := by
  simp [closestStep, currDist_exact d r hr, h]

theorem closestStep_keep (d c r : Int) (hr : DiffExact d r) (h : ¬ |r - d| < |c - d|) :
    closestStep d (|c - d|, c) r = (|c - d|, c) := by
  have h0 : |c - d| ≠ -1 := by
    have := abs_nonneg (c - d)
    omega
  simp [closestStep, currDist_exact d r hr, h, h0]

/-- Loop invariant: when the state holds the first closest element of the part already
visited and the remaining differences are exact, the loop ends with the first closest
element of the whole list. -/
theorem foldl_closestStep (d : Int) (xs : List Int) :
    ∀ (pre : List Int) (i : Nat) (c : Int), (∀ r ∈ xs, DiffExact d r) →
      FirstClosest d pre i c →
      ∃ i2 c2, xs.foldl (closestStep d) (|c - d|, c) = (|c2 - d|, c2) ∧
        FirstClosest d (pre ++ xs) i2 c2 := by
  induction xs with
  | nil =>
    intro pre i c _ h
    exact ⟨i, c, rfl, by simpa using h⟩
  | cons r xs ih =>
    intro pre i c hex h
    have hexr : DiffExact d r := hex r (List.mem_cons_self r xs)
    have hexs : ∀ t ∈ xs, DiffExact d t := fun t ht => hex t (List.mem_cons_of_mem r ht)
    obtain ⟨hi, hmin, hbefore⟩ := h
    have hlt : i < pre.length := by
      by_contra hge
      rw [List.getElem?_eq_none (by omega)] at hi
      cases hi
    by_cases hr : |r - d| < |c - d|
    · have hfc : FirstClosest d (pre ++ [r]) pre.length r := by
        refine ⟨by simp, ?_, ?_⟩
        · intro s hs
          rcases List.mem_append.1 hs with hs | hs
          · exact le_trans (le_of_lt hr) (hmin s hs)
          · simp at hs
            subst hs
            exact le_refl _
        · intro s hs
          simp at hs
          exact lt_of_lt_of_le hr (hmin s hs)
      obtain ⟨i2, c2, h1, h2⟩ := ih (pre ++ [r]) pre.length r hexs hfc
      refine ⟨i2, c2, ?_, by simpa using h2⟩
      rw [List.foldl_cons, closestStep_closer d c r hexr hr]
      exact h1
    · have hfc : FirstClosest d (pre ++ [r]) i c := by
        refine ⟨?_, ?_, ?_⟩
        · rw [List.getElem?_append_left hlt]
          exact hi
        · intro s hs
          rcases List.mem_append.1 hs with hs | hs
          · exact hmin s hs
          · simp at hs
            subst hs
            exact not_lt.1 hr
        · intro s hs
          rw [List.take_append_of_le_length (le_of_lt hlt)] at hs
          exact hbefore s hs
      obtain ⟨i2, c2, h1, h2⟩ := ih (pre ++ [r]) i c hexs hfc
      refine ⟨i2, c2, ?_, by simpa using h2⟩
      rw [List.foldl_cons, closestStep_keep d c r hexr hr]
      exact h1

/-- On a non-empty list with exact differences the loop, started from `(-1, -1)`, ends with
the first closest element. -/
theorem foldl_closestStep_init (d x : Int) (xs : List Int)
    (hex : ∀ r ∈ x :: xs, DiffExact d r) :
    ∃ i c, (x :: xs).foldl (closestStep d) (-1, -1) = (|c - d|, c) ∧
      FirstClosest d (x :: xs) i c := by
  have h0 : FirstClosest d [x] 0 x := by
    refine ⟨rfl, ?_, ?_⟩
    · intro s hs
      simp at hs
      subst hs
      exact le_refl _
    · intro s hs
      simp at hs
  obtain ⟨i, c, h1, h2⟩ := foldl_closestStep d xs [x] 0 x
    (fun t ht => hex t (List.mem_cons_of_mem x ht)) h0
  refine ⟨i, c, ?_, by simpa using h2⟩
  rw [List.foldl_cons, closestStep_first d x (hex x (List.mem_cons_self x xs))]
  exact h1

/-- The result of `findClosestUpdateRate` on a non-empty list with exact differences is the
first closest element of the list. -/
theorem findClosestUpdateRate_firstClosest (l : List Int) (d : Int) (hl : l ≠ [])
    (hex : ∀ r ∈ l, DiffExact d r) :
    ∃ i, FirstClosest d l i (findClosestUpdateRate l d) := by
  match l, hl, hex with
  | [x], _, _ =>
    refine ⟨0, rfl, ?_, ?_⟩
    · intro s hs
      simp at hs
      subst hs
      exact le_refl _
    · intro s hs
      simp at hs
  | x :: y :: rest, _, hex =>
    obtain ⟨i, c, h1, h2⟩ := foldl_closestStep_init d x (y :: rest) hex
    refine ⟨i, ?_⟩
    have : findClosestUpdateRate (x :: y :: rest) d = c := by
      simp only [findClosestUpdateRate, h1]
    rw [this]
    exact h2

/-- Every step of the loop either takes the current rate or keeps the state. -/
theorem closestStep_cases (d : Int) (st : Int × Int) (r : Int) :
    (closestStep d st r).2 = r ∨ closestStep d st r = st := by
  unfold closestStep
  simp only
  split
  · exact Or.inl rfl
  · exact Or.inr rfl

/-- Whatever the 32-bit distances come to, the loop keeps an element of the part visited. -/
theorem foldl_closestStep_mem (d : Int) (xs : List Int) :
    ∀ (st : Int × Int) (pre : List Int), st.2 ∈ pre →
      (xs.foldl (closestStep d) st).2 ∈ pre ++ xs := by
  induction xs with
  | nil =>
    intro st pre h
    simpa using h
  | cons r xs ih =>
    intro st pre h
    have hstep : (closestStep d st r).2 ∈ pre ++ [r] := by
      rcases closestStep_cases d st r with h1 | h1
      · rw [h1]
        simp
      · rw [h1]
        exact List.mem_append_left _ h
    have := ih (closestStep d st r) (pre ++ [r]) hstep
    simpa using this

/-- The result of `findClosestUpdateRate` on a non-empty list is an element of the list,
also where the 32-bit distances overflow. -/
theorem findClosestUpdateRate_mem (l : List Int) (d : Int) (hl : l ≠ []) :
    findClosestUpdateRate l d ∈ l := by
  match l, hl with
  | [x], _ => simp [findClosestUpdateRate]
  | x :: y :: rest, _ =>
    have hfirst : (closestStep d (-1, -1) x).2 = x := by
      simp [closestStep]
    have hmem : (closestStep d (-1, -1) x).2 ∈ [x] := by
      rw [hfirst]
      simp
    have := foldl_closestStep_mem d (y :: rest) (closestStep d (-1, -1) x) [x] hmem
    simpa [findClosestUpdateRate] using this

/-! ### Lemmas on counted loops -/

theorem forLoop_add {σ : Type} (body : Nat → σ → Option σ) (a b : Nat) :
    ∀ (start : Nat) (st : σ),
      forLoop body start (a + b) st = (forLoop body start a st).bind (forLoop body (start + a) b) := by
  induction a with
  | zero =>
    intro start st
    simp [forLoop]
  | succ a ih =>
    intro start st
    have e : a + 1 + b = (a + b) + 1 := by omega
    rw [e]
    simp only [forLoop]
    cases h : body start st with
    | none => simp
    | some t =>
      simp only [Option.some_bind]
      rw [ih (start + 1) t]
      have e2 : start + 1 + a = start + (a + 1) := by omega
      rw [e2]

theorem forLoop_succ {σ : Type} (body : Nat → σ → Option σ) (start count : Nat) (st : σ) :
    forLoop body start (count + 1) st = (forLoop body start count st).bind (body (start + count)) := by
  rw [forLoop_add body count 1 start st]
  congr 1
  funext t
  simp [forLoop]

/-- Invariant rule for a counted loop from 0: an invariant that holds at the start and is
carried by every iteration, each of which runs without fault, holds at the end, and the
loop runs without fault. -/
theorem forLoop_invariant {σ : Type} (Inv : Nat → σ → Prop) (body : Nat → σ → Option σ)
    (n : Nat) (st : σ) (h0 : Inv 0 st)
    (hstep : ∀ i t, i < n → Inv i t → ∃ t2, body i t = some t2 ∧ Inv (i + 1) t2) :
    ∃ t, forLoop body 0 n st = some t ∧ Inv n t := by
  induction n with
  | zero => exact ⟨st, rfl, h0⟩
  | succ n ih =>
    obtain ⟨t, ht, hinv⟩ := ih (fun i t hi h => hstep i t (by omega) h)
    obtain ⟨t2, ht2, hinv2⟩ := hstep n t (by omega) hinv
    refine ⟨t2, ?_, hinv2⟩
    rw [forLoop_succ, ht]
    simpa using ht2

/-! ### Lemmas on the packet queue -/

theorem dataAvailable_eq_true {α : Type} (cb : MtwCallback α) (h : cb.dataAvailable = true) :
    ∃ packet rest, cb.m_packetBuffer = packet :: rest := by
  cases hb : cb.m_packetBuffer with
  | nil => simp [MtwCallback.dataAvailable, hb] at h
  | cons packet rest => exact ⟨packet, rest, rfl⟩

theorem dataAvailable_eq_false {α : Type} (cb : MtwCallback α) (h : cb.dataAvailable = false) :
    cb.m_packetBuffer = [] := by
  cases hb : cb.m_packetBuffer with
  | nil => rfl
  | cons packet rest => simp [MtwCallback.dataAvailable, hb] at h

theorem latestEuler_of_data {α : Type} (cb : MtwCallback α) (old : XsEuler α)
    (packet : XsDataPacket α) (rest : List (XsDataPacket α))
    (h : cb.m_packetBuffer = packet :: rest) : latestEuler cb old = packet.orientationEuler := by
  simp [latestEuler, h]

theorem latestEuler_of_empty {α : Type} (cb : MtwCallback α) (old : XsEuler α)
    (h : cb.m_packetBuffer = []) : latestEuler cb old = old := by
  simp [latestEuler, h]

/-! ### The polling loop -/

theorem callsOn_append (i : Nat) (a b : List (Nat × MtwCall)) :
    callsOn i (a ++ b) = callsOn i a ++ callsOn i b := by
  simp [callsOn, List.filter_append]

theorem mem_callsOn (i : Nat) (f : MtwCall) (calls : List (Nat × MtwCall)) :
    f ∈ callsOn i calls ↔ (i, f) ∈ calls := by
  simp only [callsOn, List.mem_map, List.mem_filter, decide_eq_true_eq]
  constructor
  · rintro ⟨c, ⟨hc, hi⟩, hf⟩
    obtain ⟨a, b⟩ := c
    simp only at hi hf
    subst hi
    subst hf
    exact hc
  · intro h
    exact ⟨(i, f), ⟨h, rfl⟩, rfl⟩

theorem pollSensor_step {α : Type} (cbs : List (MtwCallback α)) (euler : List (XsEuler α))
    (hlen : euler.length = cbs.length) (m : Nat) (p : PollState α) (hm : m < cbs.length)
    (hinv : PollInv cbs euler m p) :
    ∃ p2, pollSensor m p = some p2 ∧ PollInv cbs euler (m + 1) p2 := by
  obtain ⟨hl1, hl2, hcb, heu, hnew, hcalls⟩ := hinv
  have hcm : cbs[m]? = some cbs[m] := List.getElem?_eq_getElem hm
  have hem : euler[m]? = some euler[m] := List.getElem?_eq_getElem (by omega)
  have hpm : p.mtwCallbacks[m]? = some cbs[m] := by
    have := hcb m cbs[m] hcm
    simpa using this
  cases hd : (cbs[m]).dataAvailable with
  | false =>
    refine ⟨{ newDataAvailable := p.newDataAvailable
              mtwCallbacks := p.mtwCallbacks
              eulerData := p.eulerData
              calls := p.calls ++ [(m, MtwCall.dataAvailable)] }, ?_, hl1, hl2, ?_, ?_, ?_, ?_⟩
    · simp [pollSensor, hpm, hd]
    · intro j cb hj
      show p.mtwCallbacks[j]? = _
      rw [hcb j cb hj]
      by_cases hjm : j = m
      · subst hjm
        rw [hcm] at hj
        cases hj
        simp [hd]
      · have hiff : j < m + 1 ↔ j < m := by omega
        simp only [hiff]
    · intro j cb e hj hje
      show p.eulerData[j]? = _
      rw [heu j cb e hj hje]
      by_cases hjm : j = m
      · subst hjm
        rw [hcm] at hj
        cases hj
        simp [latestEuler_of_empty _ e (dataAvailable_eq_false _ hd)]
      · have hiff : j < m + 1 ↔ j < m := by omega
        simp only [hiff]
    · show p.newDataAvailable = true ↔ _
      rw [hnew]
      constructor
      · rintro ⟨j, cb, hj, hc, hda⟩
        exact ⟨j, cb, by omega, hc, hda⟩
      · rintro ⟨j, cb, hj, hc, hda⟩
        by_cases hjm : j = m
        · subst hjm
          rw [hcm] at hc
          cases hc
          rw [hd] at hda
          cases hda
        · exact ⟨j, cb, by omega, hc, hda⟩
    · intro j cb hj
      show callsOn j (p.calls ++ [(m, MtwCall.dataAvailable)]) = _
      rw [callsOn_append, hcalls j cb hj]
      by_cases hjm : j = m
      · subst hjm
        rw [hcm] at hj
        cases hj
        simp [hd, callsOn]
      · have hiff : j < m + 1 ↔ j < m := by omega
        have hmj : ¬ m = j := fun e => hjm e.symm
        simp [hiff, callsOn, hmj]
  | true =>
    obtain ⟨packet, rest, hbuf⟩ := dataAvailable_eq_true _ hd
    have hget : (cbs[m]).getOldestPacket = some packet := by
      simp [MtwCallback.getOldestPacket, hbuf]
    have hlt : m < p.eulerData.length := by omega
    refine ⟨{ newDataAvailable := true
              mtwCallbacks := p.mtwCallbacks.set m (cbs[m]).deleteOldestPacket
              eulerData := p.eulerData.set m packet.orientationEuler
              calls := p.calls ++ [(m, MtwCall.dataAvailable), (m, MtwCall.getOldestPacket),
                (m, MtwCall.deleteOldestPacket)] }, ?_, ?_, ?_, ?_, ?_, ?_, ?_⟩
    · simp [pollSensor, hpm, hd, hget, hlt]
    · simp [hl1]
    · simp [hl2]
    · intro j cb hj
      by_cases hjm : j = m
      · subst hjm
        rw [hcm] at hj
        cases hj
        simp [hd, hl1, hm]
      · rw [List.getElem?_set_ne (Ne.symm hjm), hcb j cb hj]
        have hiff : j < m + 1 ↔ j < m := by omega
        simp only [hiff]
    · intro j cb e hj hje
      by_cases hjm : j = m
      · subst hjm
        rw [hcm] at hj
        cases hj
        simp [hlt, latestEuler_of_data _ e packet rest hbuf]
      · rw [List.getElem?_set_ne (Ne.symm hjm), heu j cb e hj hje]
        have hiff : j < m + 1 ↔ j < m := by omega
        simp only [hiff]
    · constructor
      · intro _
        exact ⟨m, cbs[m], by omega, hcm, hd⟩
      · intro _
        rfl
    · intro j cb hj
      show callsOn j (p.calls ++ [(m, MtwCall.dataAvailable), (m, MtwCall.getOldestPacket),
        (m, MtwCall.deleteOldestPacket)]) = _
      rw [callsOn_append, hcalls j cb hj]
      by_cases hjm : j = m
      · subst hjm
        rw [hcm] at hj
        cases hj
        simp [hd, callsOn]
      · have hiff : j < m + 1 ↔ j < m := by omega
        have hmj : ¬ m = j := fun e => hjm e.symm
        simp [hiff, callsOn, hmj]

/-- The polling loop runs without fault when `eulerData` has one entry per sensor, and
ends in the state described by `PollInv` for all sensors. -/
theorem pollSensors_spec {α β : Type} (s : LoopState α β)
    (hlen : s.eulerData.length = s.mtwCallbacks.length) :
    ∃ p, pollSensors s = some p ∧ PollInv s.mtwCallbacks s.eulerData s.mtwCallbacks.length p := by
  apply forLoop_invariant (PollInv s.mtwCallbacks s.eulerData) pollSensor
  · refine ⟨rfl, rfl, ?_, ?_, ?_, ?_⟩
    · intro j cb hj
      simp [hj]
    · intro j cb e hj hje
      simp [hje]
    · simp
    · intro j cb hj
      simp [callsOn]
  · intro i t hi hinv
    exact pollSensor_step s.mtwCallbacks s.eulerData hlen i t hi hinv


/-! ### The recording loop -/

theorem writeChannel_some {β : Type} (mychunk : List (EEG_chunk β)) (row idx : Nat) (v : β)
    (r : EEG_chunk β) (h : mychunk[row]? = some r) (hi : idx < r.channel.length) :
    writeChannel mychunk row idx v = some (mychunk.set row ⟨r.channel.set idx v⟩) := by
  simp [writeChannel, h, hi]

theorem writeChannel_none {β : Type} (mychunk : List (EEG_chunk β)) (row idx : Nat) (v : β)
    (r : EEG_chunk β) (h : mychunk[row]? = some r) (hi : r.channel.length ≤ idx) :
    writeChannel mychunk row idx v = none := by
  have : ¬ idx < r.channel.length := by omega
  simp [writeChannel, h, this]

theorem recordSensor_some {α β : Type} (narrow : α → β) (euler : List (XsEuler α))
    (pc i : Nat) (mychunk : List (EEG_chunk β)) (e : XsEuler α) (r : EEG_chunk β)
    (he : euler[i]? = some e) (hr : mychunk[pc % 25]? = some r)
    (hi : 2 + i * 3 < r.channel.length) :
    recordSensor narrow euler pc i mychunk =
      some (mychunk.set (pc % 25)
        ⟨((r.channel.set (0 + i * 3) (narrow e.roll)).set (1 + i * 3) (narrow e.pitch)).set
          (2 + i * 3) (narrow e.yaw)⟩) := by
  have hlt : pc % 25 < mychunk.length := by
    by_contra hge
    rw [List.getElem?_eq_none (by omega)] at hr
    cases hr
  simp only [recordSensor, he]
  rw [writeChannel_some mychunk _ _ _ r hr (by omega)]
  simp only [Option.some_bind]
  rw [writeChannel_some _ _ _ _ _ (List.getElem?_set_self hlt) (by simp; omega)]
  simp only [Option.some_bind, List.set_set]
  rw [writeChannel_some _ _ _ _ _ (List.getElem?_set_self hlt) (by simp; omega)]
  simp only [List.set_set]

theorem recordSensor_none {α β : Type} (narrow : α → β) (euler : List (XsEuler α))
    (pc i : Nat) (mychunk : List (EEG_chunk β)) (e : XsEuler α) (r : EEG_chunk β)
    (he : euler[i]? = some e) (hr : mychunk[pc % 25]? = some r)
    (hi : r.channel.length ≤ 0 + i * 3) :
    recordSensor narrow euler pc i mychunk = none := by
  simp only [recordSensor, he]
  rw [writeChannel_none mychunk _ _ _ r hr hi]
  rfl

theorem recordSensor_step {α β : Type} (narrow : α → β) (euler : List (XsEuler α)) (pc : Nat)
    (chunk0 : List (EEG_chunk β)) (row0 : EEG_chunk β) (m : Nat) (chunk : List (EEG_chunk β))
    (hm : m < euler.length) (hfit : (m + 1) * 3 ≤ row0.channel.length)
    (hinv : RecInv narrow euler (pc % 25) chunk0 row0 m chunk) :
    ∃ chunk2, recordSensor narrow euler pc m chunk = some chunk2 ∧
      RecInv narrow euler (pc % 25) chunk0 row0 (m + 1) chunk2 := by
  obtain ⟨hlen, hother, row, hrow, hwidth, hset, hrest⟩ := hinv
  have hem : euler[m]? = some euler[m] := List.getElem?_eq_getElem hm
  have hlt : pc % 25 < chunk.length := by
    by_contra hge
    rw [List.getElem?_eq_none (by omega)] at hrow
    cases hrow
  refine ⟨_, recordSensor_some narrow euler pc m chunk euler[m] row hem hrow (by omega), ?_⟩
  refine ⟨by simp [hlen], ?_, _, List.getElem?_set_self hlt, by simp [hwidth], ?_, ?_⟩
  · intro q hq
    rw [List.getElem?_set_ne (Ne.symm hq)]
    exact hother q hq
  · intro i e hi he
    by_cases him : i = m
    · subst him
      rw [hem] at he
      cases he
      have h0 : 0 + i * 3 < row.channel.length := by omega
      have h1 : 1 + i * 3 < row.channel.length := by omega
      have h2 : 2 + i * 3 < row.channel.length := by omega
      refine ⟨?_, ?_, ?_⟩
      · rw [List.getElem?_set_ne (by omega), List.getElem?_set_ne (by omega)]
        exact List.getElem?_set_self h0
      · rw [List.getElem?_set_ne (by omega)]
        exact List.getElem?_set_self (by simpa using h1)
      · exact List.getElem?_set_self (by simpa using h2)
    · obtain ⟨g0, g1, g2⟩ := hset i e (by omega) he
      have hlt2 : i < m := by omega
      refine ⟨?_, ?_, ?_⟩
      · rw [List.getElem?_set_ne (by omega), List.getElem?_set_ne (by omega),
          List.getElem?_set_ne (by omega)]
        exact g0
      · rw [List.getElem?_set_ne (by omega), List.getElem?_set_ne (by omega),
          List.getElem?_set_ne (by omega)]
        exact g1
      · rw [List.getElem?_set_ne (by omega), List.getElem?_set_ne (by omega),
          List.getElem?_set_ne (by omega)]
        exact g2
  · intro c hc
    rw [List.getElem?_set_ne (by omega), List.getElem?_set_ne (by omega),
      List.getElem?_set_ne (by omega)]
    exact hrest c (by omega)

/-- The recording loop runs without fault when the `n` sensors fit the row (`3 n` channels
at most), and ends in the state described by `RecInv` for all sensors. -/
theorem recordSensors_spec {α β : Type} (narrow : α → β) (euler : List (XsEuler α)) (pc n : Nat)
    (chunk0 : List (EEG_chunk β)) (row0 : EEG_chunk β) (hrow : chunk0[pc % 25]? = some row0)
    (hn : n ≤ euler.length) (hfit : n * 3 ≤ row0.channel.length) :
    ∃ chunk, recordSensors narrow euler pc n chunk0 = some chunk ∧
      RecInv narrow euler (pc % 25) chunk0 row0 n chunk := by
  apply forLoop_invariant (RecInv narrow euler (pc % 25) chunk0 row0)
    (recordSensor narrow euler pc)
  · refine ⟨rfl, fun _ _ => rfl, row0, hrow, rfl, ?_, fun _ _ => rfl⟩
    intro i e hi
    omega
  · intro i t hi hinv
    exact recordSensor_step narrow euler pc chunk0 row0 i t (by omega) (by omega) hinv

/-- With 19 sensors or more the recording loop faults: after the 18 sensors that fit, it
writes channel `0 + 18 * 3 = 54` of a row of `nbchannels = 54` channels. -/
theorem recordSensors_fault {α β : Type} (narrow : α → β) (euler : List (XsEuler α))
    (pc n : Nat) (chunk0 : List (EEG_chunk β)) (row0 : EEG_chunk β)
    (hrow : chunk0[pc % 25]? = some row0) (hwidth : row0.channel.length = nbchannels)
    (hn : n ≤ euler.length) (hbig : 19 ≤ n) :
    recordSensors narrow euler pc n chunk0 = none := by
  obtain ⟨chunk, hrun, -, -, row, hr, hw, -, -⟩ :=
    recordSensors_spec narrow euler pc 18 chunk0 row0 hrow (by omega)
      (by rw [hwidth]; decide)
  have hsplit : n = 18 + ((n - 19) + 1) := by omega
  have he : euler[18]? = some euler[18] := List.getElem?_eq_getElem (by omega)
  unfold recordSensors at hrun ⊢
  rw [hsplit, forLoop_add, hrun]
  simp only [Option.some_bind, forLoop]
  rw [recordSensor_none narrow euler pc 18 chunk euler[18] row he hr
    (by rw [hw, hwidth]; decide)]
  rfl


/-! ### One tick -/

theorem wf_row {α β : Type} (s : LoopState α β) (hwf : s.WF) :
    ∃ row0, s.mychunk[s.printCounter % 25]? = some row0 ∧ row0.channel.length = nbchannels := by
  obtain ⟨-, h25, hrows, -⟩ := hwf
  have hlt : s.printCounter % 25 < s.mychunk.length := by
    rw [h25]
    exact Nat.mod_lt _ (by decide)
  exact ⟨s.mychunk[s.printCounter % 25], List.getElem?_eq_getElem hlt,
    hrows _ (List.getElem_mem hlt)⟩

theorem pollInv_anyData {α : Type} (cbs : List (MtwCallback α)) (euler : List (XsEuler α))
    (p : PollState α) (hinv : PollInv cbs euler cbs.length p) :
    p.newDataAvailable = true ↔ ∃ cb ∈ cbs, cb.dataAvailable = true := by
  rw [hinv.2.2.2.2.1]
  constructor
  · rintro ⟨j, cb, -, hj, hd⟩
    exact ⟨cb, List.getElem?_mem hj, hd⟩
  · rintro ⟨cb, hmem, hd⟩
    obtain ⟨j, hj⟩ := List.mem_iff_getElem?.1 hmem
    have hlt : j < cbs.length := by
      by_contra hge
      rw [List.getElem?_eq_none (by omega)] at hj
      cases hj
    exact ⟨j, cb, hlt, hj, hd⟩

/-- A tick in which some queue has data, for sensors that fit the row: the tick runs
without fault, and its result is built from the polled state `p` and the recorded batch
`chunk`. -/
theorem tick_of_data {α β : Type} (narrow : α → β) (s : LoopState α β) (hwf : s.WF)
    (hfit : s.mtwCallbacks.length * 3 ≤ nbchannels)
    (hdata : ∃ cb ∈ s.mtwCallbacks, cb.dataAvailable = true) :
    ∃ p chunk row0,
      PollInv s.mtwCallbacks s.eulerData s.mtwCallbacks.length p ∧
      s.mychunk[s.printCounter % 25]? = some row0 ∧ row0.channel.length = nbchannels ∧
      RecInv narrow p.eulerData (s.printCounter % 25) s.mychunk row0 s.mtwCallbacks.length chunk ∧
      tick narrow s = some
        { mtwCallbacks := p.mtwCallbacks
          eulerData := p.eulerData
          mychunk := chunk
          printCounter := (s.printCounter + 1) % 2 ^ 32
          flushed := if s.printCounter % 25 = 0 then s.flushed ++ [chunk] else s.flushed } := by
  obtain ⟨p, hp, hinv⟩ := pollSensors_spec s hwf.1
  obtain ⟨row0, hrow0, hwidth⟩ := wf_row s hwf
  have hnew : p.newDataAvailable = true := (pollInv_anyData _ _ p hinv).2 hdata
  have hl1 : p.mtwCallbacks.length = s.mtwCallbacks.length := hinv.1
  have hl2 : p.eulerData.length = s.eulerData.length := hinv.2.1
  obtain ⟨chunk, hrec, hrinv⟩ := recordSensors_spec narrow p.eulerData s.printCounter
    s.mtwCallbacks.length s.mychunk row0 hrow0 (by rw [hl2, hwf.1]) (by rw [hwidth]; exact hfit)
  refine ⟨p, chunk, row0, hinv, hrow0, hwidth, hrinv, ?_⟩
  simp only [tick, hp, hnew, hl1, hrec, if_true]

/-- A tick in which some queue has data, for 19 sensors or more: the record write leaves
the row, the tick faults. -/
theorem tick_fault {α β : Type} (narrow : α → β) (s : LoopState α β) (hwf : s.WF)
    (hbig : 19 ≤ s.mtwCallbacks.length)
    (hdata : ∃ cb ∈ s.mtwCallbacks, cb.dataAvailable = true) :
    tick narrow s = none := by
  obtain ⟨p, hp, hinv⟩ := pollSensors_spec s hwf.1
  obtain ⟨row0, hrow0, hwidth⟩ := wf_row s hwf
  have hnew : p.newDataAvailable = true := (pollInv_anyData _ _ p hinv).2 hdata
  have hl1 : p.mtwCallbacks.length = s.mtwCallbacks.length := hinv.1
  have hl2 : p.eulerData.length = s.eulerData.length := hinv.2.1
  have hrec := recordSensors_fault narrow p.eulerData s.printCounter s.mtwCallbacks.length
    s.mychunk row0 hrow0 hwidth (by rw [hl2, hwf.1]) hbig
  simp only [tick, hp, hnew, hl1, hrec, if_true]

/-- A tick in which no queue has data changes nothing. -/
theorem tick_of_no_data {α β : Type} (narrow : α → β) (s : LoopState α β)
    (hlen : s.eulerData.length = s.mtwCallbacks.length)
    (hnone : ∀ cb ∈ s.mtwCallbacks, cb.dataAvailable = false) :
    tick narrow s = some s := by
  obtain ⟨p, hp, hinv⟩ := pollSensors_spec s hlen
  have hnew : p.newDataAvailable = false := by
    cases hv : p.newDataAvailable with
    | false => rfl
    | true =>
      obtain ⟨cb, hmem, hd⟩ := (pollInv_anyData _ _ p hinv).1 hv
      rw [hnone cb hmem] at hd
      cases hd
  obtain ⟨hl1, hl2, hcb, heu, -⟩ := hinv
  have hcbs : p.mtwCallbacks = s.mtwCallbacks := by
    apply List.ext_getElem?
    intro j
    by_cases hj : j < s.mtwCallbacks.length
    · have hc : s.mtwCallbacks[j]? = some s.mtwCallbacks[j] := List.getElem?_eq_getElem hj
      rw [hcb j _ hc, hc, hnone _ (List.getElem_mem hj)]
      simp
    · rw [List.getElem?_eq_none (by omega), List.getElem?_eq_none (by omega)]
  have heul : p.eulerData = s.eulerData := by
    apply List.ext_getElem?
    intro j
    by_cases hj : j < s.mtwCallbacks.length
    · have hc : s.mtwCallbacks[j]? = some s.mtwCallbacks[j] := List.getElem?_eq_getElem hj
      have he : s.eulerData[j]? = some s.eulerData[j] := List.getElem?_eq_getElem (by omega)
      rw [heu j _ _ hc he, he, latestEuler_of_empty _ _
        (dataAvailable_eq_false _ (hnone _ (List.getElem_mem hj)))]
      simp
    · rw [List.getElem?_eq_none (by omega), List.getElem?_eq_none (by omega)]
  simp only [tick, hp, hnew, hcbs, heul]
  rfl

/-- The state at the entry of the loop is well formed. -/
theorem init_wf {α β : Type} (mtwCallbacks : List (MtwCallback α)) (euler0 : XsEuler α)
    (zero : β) : (LoopState.init mtwCallbacks euler0 zero : LoopState α β).WF := by
  refine ⟨by simp [LoopState.init], by simp [LoopState.init], ?_, by simp [LoopState.init]⟩
  intro row hrow
  simp only [LoopState.init] at hrow
  rw [List.eq_of_mem_replicate hrow]
  simp

/-- A tick that runs without fault keeps the state well formed. -/
theorem tick_wf {α β : Type} (narrow : α → β) (s s2 : LoopState α β) (hwf : s.WF)
    (ht : tick narrow s = some s2) : s2.WF := by
  by_cases hdata : ∃ cb ∈ s.mtwCallbacks, cb.dataAvailable = true
  · by_cases hbig : 19 ≤ s.mtwCallbacks.length
    · rw [tick_fault narrow s hwf hbig hdata] at ht
      cases ht
    · obtain ⟨p, chunk, row0, hinv, hrow0, hwidth, hrinv, htick⟩ :=
        tick_of_data narrow s hwf (by simp only [nbchannels]; omega) hdata
      rw [htick] at ht
      cases ht
      obtain ⟨hl1, hl2, -⟩ := hinv
      obtain ⟨hlen, hother, row, hrow, hw, -, -⟩ := hrinv
      refine ⟨by rw [hl2, hl1]; exact hwf.1, by rw [hlen]; exact hwf.2.1, ?_,
        Nat.mod_lt _ (by decide)⟩
      intro r hr
      obtain ⟨q, hq⟩ := List.mem_iff_getElem?.1 hr
      by_cases hqr : q = s.printCounter % 25
      · subst hqr
        simp only at hq
        rw [hrow] at hq
        cases hq
        rw [hw, hwidth]
      · simp only at hq
        rw [hother q hqr] at hq
        exact hwf.2.2.1 r (List.getElem?_mem hq)
  · have hnone : ∀ cb ∈ s.mtwCallbacks, cb.dataAvailable = false := by
      intro cb hmem
      cases hd : cb.dataAvailable with
      | false => rfl
      | true => exact absurd ⟨cb, hmem, hd⟩ hdata
    rw [tick_of_no_data narrow s hwf.1 hnone] at ht
    cases ht
    exact hwf



/-! ### Lemmas on the FIFO behaviour of the packet queue -/

theorem pushAll_buffer {α : Type} (packets : List (XsDataPacket α)) :
    ∀ cb : MtwCallback α, (cb.pushAll packets).m_packetBuffer = cb.m_packetBuffer ++ packets := by
  induction packets with
  | nil =>
    intro cb
    simp [MtwCallback.pushAll]
  | cons packet rest ih =>
    intro cb
    have h := ih (cb.onLiveDataAvailable packet)
    simp only [MtwCallback.pushAll, List.foldl_cons] at h ⊢
    rw [h]
    simp [MtwCallback.onLiveDataAvailable]

theorem drain_buffer {α : Type} (k : Nat) :
    ∀ buffer : List (XsDataPacket α),
      MtwCallback.drain k ⟨buffer⟩ = (buffer.take k, ⟨buffer.drop k⟩) := by
  induction k with
  | zero =>
    intro buffer
    simp [MtwCallback.drain]
  | succ k ih =>
    intro buffer
    cases buffer with
    | nil => simp [MtwCallback.drain, MtwCallback.getOldestPacket]
    | cons packet rest =>
      simp [MtwCallback.drain, MtwCallback.getOldestPacket, MtwCallback.deleteOldestPacket, ih]

/-- Every packet pushed is either still in the queue or was removed by a successful pop,
and the pops removed the packets in the order of the pushes. -/
theorem queueTrace_call_inv {α : Type} (t : QueueTrace α) (c : QueueCall α)
    (h : t.pushed = t.popped ++ t.queue.m_packetBuffer) :
    (t.call c).pushed = (t.call c).popped ++ (t.call c).queue.m_packetBuffer := by
  cases c with
  | push packet =>
    simp [QueueTrace.call, MtwCallback.onLiveDataAvailable, h]
  | pop =>
    cases hb : t.queue.m_packetBuffer with
    | nil =>
      simp [QueueTrace.call, MtwCallback.getOldestPacket, MtwCallback.deleteOldestPacket, hb, h]
    | cons packet rest =>
      simp [QueueTrace.call, MtwCallback.getOldestPacket, MtwCallback.deleteOldestPacket, hb, h]

theorem queueTrace_foldl_inv {α : Type} (calls : List (QueueCall α)) :
    ∀ t : QueueTrace α, t.pushed = t.popped ++ t.queue.m_packetBuffer →
      (calls.foldl QueueTrace.call t).pushed =
        (calls.foldl QueueTrace.call t).popped ++
          (calls.foldl QueueTrace.call t).queue.m_packetBuffer := by
  induction calls with
  | nil =>
    intro t h
    exact h
  | cons c rest ih =>
    intro t h
    exact ih (t.call c) (queueTrace_call_inv t c h)

/-! ### Lemmas on the connectivity registry -/

theorem mem_onConnectivityChanged {δ : Type} [DecidableEq δ] (cb : WirelessMasterCallback δ)
    (dev d : δ) (st : XsConnectivityState) :
    d ∈ (cb.onConnectivityChanged dev st).getWirelessMTWs ↔
      (d = dev ∧ st = XsConnectivityState.Connected) ∨ (d ≠ dev ∧ d ∈ cb.getWirelessMTWs) := by
  by_cases hst : st = XsConnectivityState.Connected
  · by_cases hd : d = dev
    · simp [WirelessMasterCallback.onConnectivityChanged,
        WirelessMasterCallback.getWirelessMTWs, hst, hd]
    · simp [WirelessMasterCallback.onConnectivityChanged,
        WirelessMasterCallback.getWirelessMTWs, hst, hd]
  · by_cases hd : d = dev
    · simp [WirelessMasterCallback.onConnectivityChanged,
        WirelessMasterCallback.getWirelessMTWs, hst, hd]
    · simp [WirelessMasterCallback.onConnectivityChanged,
        WirelessMasterCallback.getWirelessMTWs, hst, hd]

/-- After a sequence of notifications a device is in the registry exactly when its last
notification was `Connected`, or when it was not notified at all and was in the registry
before. -/
theorem mem_notifyAll {δ : Type} [DecidableEq δ] (dev : δ)
    (notifications : List (δ × XsConnectivityState)) :
    ∀ cb : WirelessMasterCallback δ,
      dev ∈ (cb.notifyAll notifications).getWirelessMTWs ↔
        lastNotified dev notifications = some XsConnectivityState.Connected ∨
          (lastNotified dev notifications = none ∧ dev ∈ cb.getWirelessMTWs) := by
  induction notifications with
  | nil =>
    intro cb
    simp [WirelessMasterCallback.notifyAll, lastNotified]
  | cons n rest ih =>
    intro cb
    have h := ih (cb.onConnectivityChanged n.1 n.2)
    simp only [WirelessMasterCallback.notifyAll, List.foldl_cons] at h ⊢
    rw [h, mem_onConnectivityChanged]
    obtain ⟨a, st⟩ := n
    cases hl : lastNotified dev rest with
    | some st2 => simp [lastNotified, hl]
    | none =>
      by_cases hd : a = dev
      · subst hd
        simp [lastNotified, hl]
      · have hd2 : ¬ dev = a := fun e => hd e.symm
        simp [lastNotified, hl, hd, hd2]

/-! ## The claims -/

/-- C1: for every non-empty list of supported rates and every desired rate, with the
differences computed exactly (no 32-bit overflow in `rate - desired` or its absolute value),
`findClosestUpdateRate` returns an element of the list whose absolute distance to the
desired rate is at most that of every element of the list; the result is an element of the
list in any case; `{50, 75, 100}` with desired 75 gives 75 and `{40, 60, 120}` with desired
75 gives 60. -/
theorem C1_closest_is_minimal (l : List Int) (d : Int) (hl : l ≠ []) :
    findClosestUpdateRate l d ∈ l ∧
    ((∀ r ∈ l, DiffExact d r) → ∀ s ∈ l, |findClosestUpdateRate l d - d| ≤ |s - d|) ∧
    findClosestUpdateRate [50, 75, 100] 75 = 75 ∧
    findClosestUpdateRate [40, 60, 120] 75 = 60 := by
  refine ⟨findClosestUpdateRate_mem l d hl, ?_, by decide, by decide⟩
  intro hex
  obtain ⟨i, -, hmin, -⟩ := findClosestUpdateRate_firstClosest l d hl hex
  exact hmin

/-- Witness of C1 at the list `[40, 60, 120]` and the desired rate 75. -/
theorem C1_closest_is_minimal_witness :
    ([40, 60, 120] : List Int) ≠ [] ∧ (∀ r ∈ ([40, 60, 120] : List Int), DiffExact 75 r) ∧
    findClosestUpdateRate [40, 60, 120] 75 ∈ ([40, 60, 120] : List Int) ∧
    (∀ s ∈ ([40, 60, 120] : List Int), |findClosestUpdateRate [40, 60, 120] 75 - 75| ≤ |s - 75|) ∧
    findClosestUpdateRate [50, 75, 100] 75 = 75 ∧
    findClosestUpdateRate [40, 60, 120] 75 = 60 :=
  ⟨by decide, by simp [DiffExact, abs_lt],
    (C1_closest_is_minimal [40, 60, 120] 75 (by decide)).1,
    (C1_closest_is_minimal [40, 60, 120] 75 (by decide)).2.1 (by simp [DiffExact, abs_lt]),
    (C1_closest_is_minimal [40, 60, 120] 75 (by decide)).2.2⟩

/-- C2, as the code has it: counterexample. On the non-empty list `[100, -2147483573]` of
`int` values with desired rate 75, the distance of the second element, `2^31`, overflows to
`-2^31` in line 40 and wins the comparison: the function returns `-2147483573`, the element
farthest from 75, although 100 is at distance 25. -/
theorem C2_overflow_returns_farthest :
    ([100, -2147483573] : List Int) ≠ [] ∧
    findClosestUpdateRate [100, -2147483573] 75 = -2147483573 ∧
    |(100 : Int) - 75| < |(-2147483573 : Int) - 75| ∧
    wrapInt32 (-2147483573) = -2147483573 ∧ ¬ DiffExact 75 (-2147483573) := by
  refine ⟨by decide, by decide, by decide, by decide, ?_⟩
  unfold DiffExact
  decide

/-- C2, amended: for every non-empty list and every desired rate such that every difference
`rate - desired` and its absolute value are computed exactly in 32-bit `int`,
`findClosestUpdateRate` returns the element at the least index at which the minimal
absolute distance is attained: there is an index `i` holding the result such that no
element is closer and every element at a smaller index is strictly farther; `[70, 80]` with
desired 75 gives 70, `[80, 70]` gives 80. -/
theorem C2_ties_first_index (l : List Int) (d : Int) (hl : l ≠ [])
    (hex : ∀ r ∈ l, DiffExact d r) :
    (∃ i : Nat, l[i]? = some (findClosestUpdateRate l d) ∧
      (∀ (j : Nat) (s : Int), l[j]? = some s → |findClosestUpdateRate l d - d| ≤ |s - d|) ∧
      (∀ (j : Nat) (s : Int), j < i → l[j]? = some s →
        |findClosestUpdateRate l d - d| < |s - d|)) ∧
    findClosestUpdateRate [70, 80] 75 = 70 ∧ findClosestUpdateRate [80, 70] 75 = 80 := by
  obtain ⟨i, hi, hmin, hbefore⟩ := findClosestUpdateRate_firstClosest l d hl hex
  refine ⟨⟨i, hi, ?_, ?_⟩, by decide, by decide⟩
  · intro j s hj
    exact hmin s (List.getElem?_mem hj)
  · intro j s hji hj
    have hm : (l.take i)[j]? = some s := by
      rw [List.getElem?_take_of_lt hji]
      exact hj
    exact hbefore s (List.getElem?_mem hm)

/-- Witness of amended C2 at the list `[80, 70]` and the desired rate 75. -/
theorem C2_ties_first_index_witness :
    ([80, 70] : List Int) ≠ [] ∧ (∀ r ∈ ([80, 70] : List Int), DiffExact 75 r) ∧
    ((∃ i : Nat, ([80, 70] : List Int)[i]? = some (findClosestUpdateRate [80, 70] 75) ∧
      (∀ (j : Nat) (s : Int), ([80, 70] : List Int)[j]? = some s →
        |findClosestUpdateRate [80, 70] 75 - 75| ≤ |s - 75|) ∧
      (∀ (j : Nat) (s : Int), j < i → ([80, 70] : List Int)[j]? = some s →
        |findClosestUpdateRate [80, 70] 75 - 75| < |s - 75|)) ∧
    findClosestUpdateRate [70, 80] 75 = 70 ∧ findClosestUpdateRate [80, 70] 75 = 80) :=
  ⟨by decide, by simp [DiffExact, abs_lt],
    C2_ties_first_index [80, 70] 75 (by decide) (by simp [DiffExact, abs_lt])⟩

/-- C3, as the code has it: counterexample to "-1 is never returned for a non-empty list".
On the non-empty list `[-1, 5]` with desired rate 0 the loop returns the element -1. -/
theorem C3_minus_one_returned :
    ([-1, 5] : List Int) ≠ [] ∧ findClosestUpdateRate [-1, 5] 0 = -1 :=
  ⟨by decide, by decide⟩

/-- C3, amended: on the empty list `findClosestUpdateRate` returns the sentinel 0; on a
non-empty list the result is an element of the list, so 0 is returned only if 0 is an
element and -1, the loop's initial value, only if -1 is an element. -/
theorem C3_sentinel_only_if_member (l : List Int) (d : Int) (hl : l ≠ []) :
    findClosestUpdateRate [] d = 0 ∧
    findClosestUpdateRate l d ∈ l ∧
    (findClosestUpdateRate l d = 0 → (0 : Int) ∈ l) ∧
    (findClosestUpdateRate l d = -1 → (-1 : Int) ∈ l) := by
  have hmem : findClosestUpdateRate l d ∈ l := findClosestUpdateRate_mem l d hl
  refine ⟨rfl, hmem, ?_, ?_⟩
  · intro h0
    rw [h0] at hmem
    exact hmem
  · intro h1
    rw [h1] at hmem
    exact hmem

/-- Witness of amended C3 at the list `[40, 0, 120]` and the desired rate 10. -/
theorem C3_sentinel_only_if_member_witness :
    ([40, 0, 120] : List Int) ≠ [] ∧
    (findClosestUpdateRate [] 10 = 0 ∧
      findClosestUpdateRate [40, 0, 120] 10 ∈ ([40, 0, 120] : List Int) ∧
      (findClosestUpdateRate [40, 0, 120] 10 = 0 → (0 : Int) ∈ ([40, 0, 120] : List Int)) ∧
      (findClosestUpdateRate [40, 0, 120] 10 = -1 → (-1 : Int) ∈ ([40, 0, 120] : List Int))) :=
  ⟨by decide, C3_sentinel_only_if_member [40, 0, 120] 10 (by decide)⟩

/-- C4: on a one-element list `[x]`, `findClosestUpdateRate` returns `x` for every desired
rate `d`. -/
theorem C4_single_rate (x d : Int) : findClosestUpdateRate [x] d = x := rfl

/-- C5, as the code has it, on the three-sensor scenario with one packet per sensor and
tick. After the 25 ticks 0..24 exactly one batch has been flushed, and it was flushed at
tick 0: its row 0 holds the record of tick 0 and its rows 1..24 are still zero, although
the batch in memory holds the records of the ticks 0..24 in rows 0..24. The records of the
ticks 1..24 are handed over by the second flush, at tick 25, in a batch whose row 0 already
holds the record of tick 25. None of the records of the ticks 1..24 is the zero row. -/
theorem C5_flush_at_tick_zero :
    (runTicks id scenarioSamples 25 scenarioStart).map (fun s => s.flushed) =
      some [scenarioRow 0 :: List.replicate 24 zeroRow] ∧
    (runTicks id scenarioSamples 25 scenarioStart).map (fun s => s.mychunk) =
      some ((List.range 25).map scenarioRow) ∧
    (runTicks id scenarioSamples 25 scenarioStart).map (fun s => s.printCounter) = some 25 ∧
    (runTicks id scenarioSamples 26 scenarioStart).map (fun s => s.flushed) =
      some [scenarioRow 0 :: List.replicate 24 zeroRow,
        scenarioRow 25 :: (List.range 24).map (fun t => scenarioRow (t + 1))] ∧
    zeroRow ∉ (List.range 24).map (fun t => scenarioRow (t + 1)) := by
  refine ⟨by decide, by decide, by decide, by decide, by decide⟩

/-- C6, as the code has it: counterexample. With 19 sensors, each with data, the tick
writes channel 54 of a 54-channel row and faults, so no record holds the values of sensor
18; and at `printCounter = 2^32 - 1` a tick with data leaves `printCounter = 0`, not
`2^32`. -/
theorem C6_fails_beyond_18_sensors_and_at_wrap :
    overfullState.WF ∧ (∃ cb ∈ overfullState.mtwCallbacks, cb.dataAvailable = true) ∧
    overfullState.mtwCallbacks.length = 19 ∧ tick id overfullState = none ∧
    wrapState.WF ∧ (∃ cb ∈ wrapState.mtwCallbacks, cb.dataAvailable = true) ∧
    wrapState.printCounter = 4294967295 ∧
    (tick id wrapState).map (fun s => s.printCounter) = some 0 := by
  refine ⟨init_wf _ _ _, by decide, by decide, by decide, ?_, by decide, by decide, by decide⟩
  refine ⟨by decide, by decide, ?_, by decide⟩
  intro row hrow
  simp only [wrapState] at hrow
  rw [List.eq_of_mem_replicate hrow]
  simp [zeroRow]

/-- C6, amended: on a well-formed state with at most 18 sensors, a tick in which some
queue has data runs without fault; the row `printCounter % 25` of the batch then holds, for
every sensor `i`, in channels `3i`, `3i+1`, `3i+2` the roll, pitch and yaw of the sensor's
latest value (the head packet of its queue at the start of the tick when the queue has
data, the stored value otherwise), that value is the one stored for the sensor, and
`printCounter` is incremented by 1 modulo `2^32`. A tick in which no queue has data leaves
the batch, the stored values, `printCounter` and the flushed batches unchanged. -/
theorem C6_record_latest_values {α β : Type} (narrow : α → β) (s : LoopState α β)
    (hwf : s.WF) :
    (s.mtwCallbacks.length ≤ 18 → (∃ cb ∈ s.mtwCallbacks, cb.dataAvailable = true) →
      ∃ s2 row, tick narrow s = some s2 ∧
        s2.mychunk[s.printCounter % 25]? = some row ∧
        (∀ (i : Nat) (cb : MtwCallback α) (old : XsEuler α),
          s.mtwCallbacks[i]? = some cb → s.eulerData[i]? = some old →
            s2.eulerData[i]? = some (latestEuler cb old) ∧
            row.channel[3 * i]? = some (narrow (latestEuler cb old).roll) ∧
            row.channel[3 * i + 1]? = some (narrow (latestEuler cb old).pitch) ∧
            row.channel[3 * i + 2]? = some (narrow (latestEuler cb old).yaw)) ∧
        s2.printCounter = (s.printCounter + 1) % 2 ^ 32 ∧
        (s.printCounter + 1 < 2 ^ 32 → s2.printCounter = s.printCounter + 1)) ∧
    ((∀ cb ∈ s.mtwCallbacks, cb.dataAvailable = false) →
      ∃ s2, tick narrow s = some s2 ∧ s2.mychunk = s.mychunk ∧ s2.eulerData = s.eulerData ∧
        s2.printCounter = s.printCounter ∧ s2.flushed = s.flushed) := by
  constructor
  · intro hfit hdata
    obtain ⟨p, chunk, row0, hinv, -, -, hrinv, htick⟩ :=
      tick_of_data narrow s hwf (by simp only [nbchannels]; omega) hdata
    obtain ⟨-, -, -, heu, -⟩ := hinv
    obtain ⟨-, -, row, hrow, -, hset, -⟩ := hrinv
    refine ⟨_, row, htick, hrow, ?_, rfl, ?_⟩
    · intro i cb old hi he
      have hlt : i < s.mtwCallbacks.length := by
        by_contra hge
        rw [List.getElem?_eq_none (by omega)] at hi
        cases hi
      have hpe : p.eulerData[i]? = some (latestEuler cb old) := by
        rw [heu i cb old hi he]
        simp [hlt]
      obtain ⟨g0, g1, g2⟩ := hset i _ hlt hpe
      have e0 : 0 + i * 3 = 3 * i := by omega
      have e1 : 1 + i * 3 = 3 * i + 1 := by omega
      have e2 : 2 + i * 3 = 3 * i + 2 := by omega
      rw [e0] at g0
      rw [e1] at g1
      rw [e2] at g2
      exact ⟨hpe, g0, g1, g2⟩
    · intro hno
      exact Nat.mod_eq_of_lt hno
  · intro hnone
    exact ⟨s, tick_of_no_data narrow s hwf.1 hnone, rfl, rfl, rfl, rfl⟩

/-- Witness of amended C6 at `mixedState`. -/
theorem C6_record_latest_values_witness :
    mixedState.WF ∧ mixedState.mtwCallbacks.length ≤ 18 ∧
    (∃ cb ∈ mixedState.mtwCallbacks, cb.dataAvailable = true) ∧
    ∃ s2 row, tick id mixedState = some s2 ∧
      s2.mychunk[mixedState.printCounter % 25]? = some row ∧
      (∀ (i : Nat) (cb : MtwCallback Int) (old : XsEuler Int),
        mixedState.mtwCallbacks[i]? = some cb → mixedState.eulerData[i]? = some old →
          s2.eulerData[i]? = some (latestEuler cb old) ∧
          row.channel[3 * i]? = some (id (latestEuler cb old).roll) ∧
          row.channel[3 * i + 1]? = some (id (latestEuler cb old).pitch) ∧
          row.channel[3 * i + 2]? = some (id (latestEuler cb old).yaw)) ∧
      s2.printCounter = (mixedState.printCounter + 1) % 2 ^ 32 ∧
      (mixedState.printCounter + 1 < 2 ^ 32 → s2.printCounter = mixedState.printCounter + 1) :=
  ⟨init_wf _ _ _, by decide, by decide,
    (C6_record_latest_values id mixedState (init_wf _ _ _)).1 (by decide) (by decide)⟩

/-- C7: in the polling loop of every tick (run on a state in which `eulerData` has one
entry per sensor, as line 232 makes it), a sensor whose queue has data loses exactly its
oldest packet: the calls made on it are `dataAvailable`, `getOldestPacket`,
`deleteOldestPacket`, each once and in that order, `getOldestPacket` returns the head, the
queue after the loop is the tail, in the same order and one packet shorter; on a sensor
whose queue is empty only `dataAvailable` is called, neither `getOldestPacket` nor
`deleteOldestPacket`, and its queue is unchanged. The polling loop never faults, and a tick
that completes ends with the queues the polling loop left. -/
theorem C7_poll_removes_oldest {α β : Type} (narrow : α → β) (s : LoopState α β)
    (hlen : s.eulerData.length = s.mtwCallbacks.length) :
    ∃ p, pollSensors s = some p ∧
      p.mtwCallbacks.length = s.mtwCallbacks.length ∧
      (∀ s2, tick narrow s = some s2 → s2.mtwCallbacks = p.mtwCallbacks) ∧
      ∀ (i : Nat) (cb : MtwCallback α), s.mtwCallbacks[i]? = some cb →
        (cb.dataAvailable = true →
          ∃ oldest rest, cb.m_packetBuffer = oldest :: rest ∧
            cb.getOldestPacket = some oldest ∧
            p.mtwCallbacks[i]? = some cb.deleteOldestPacket ∧
            cb.deleteOldestPacket.m_packetBuffer = rest ∧
            cb.deleteOldestPacket.m_packetBuffer.length + 1 = cb.m_packetBuffer.length ∧
            callsOn i p.calls =
              [MtwCall.dataAvailable, MtwCall.getOldestPacket, MtwCall.deleteOldestPacket]) ∧
        (cb.dataAvailable = false →
          p.mtwCallbacks[i]? = some cb ∧
          callsOn i p.calls = [MtwCall.dataAvailable] ∧
          (i, MtwCall.getOldestPacket) ∉ p.calls ∧
          (i, MtwCall.deleteOldestPacket) ∉ p.calls) := by
  obtain ⟨p, hp, hl1, -, hcb, -, -, hcalls⟩ := pollSensors_spec s hlen
  refine ⟨p, hp, hl1, ?_, ?_⟩
  · intro s2 ht
    simp only [tick, hp] at ht
    split at ht
    · split at ht
      · cases ht
      · cases ht
        rfl
    · cases ht
      rfl
  · intro i cb hi
    have hlt : i < s.mtwCallbacks.length := by
      by_contra hge
      rw [List.getElem?_eq_none (by omega)] at hi
      cases hi
    constructor
    · intro hd
      obtain ⟨oldest, rest, hbuf⟩ := dataAvailable_eq_true cb hd
      refine ⟨oldest, rest, hbuf, ?_, ?_, ?_, ?_, ?_⟩
      · simp [MtwCallback.getOldestPacket, hbuf]
      · rw [hcb i cb hi]
        simp [hlt, hd]
      · simp [MtwCallback.deleteOldestPacket, hbuf]
      · simp [MtwCallback.deleteOldestPacket, hbuf]
      · rw [hcalls i cb hi]
        simp [hlt, hd]
    · intro hd
      have hc : callsOn i p.calls = [MtwCall.dataAvailable] := by
        rw [hcalls i cb hi]
        simp [hlt, hd]
      refine ⟨?_, hc, ?_, ?_⟩
      · rw [hcb i cb hi]
        simp [hd]
      · intro hmem
        have := (mem_callsOn i MtwCall.getOldestPacket p.calls).2 hmem
        rw [hc] at this
        simp at this
      · intro hmem
        have := (mem_callsOn i MtwCall.deleteOldestPacket p.calls).2 hmem
        rw [hc] at this
        simp at this

/-- Witness of C7 at `mixedState`: sensors 0 and 2 have one packet queued, sensor 1 none;
the calls of the polling loop there are the three calls on sensor 0, `dataAvailable` alone
on sensor 1, the three calls on sensor 2. -/
theorem C7_poll_removes_oldest_witness :
    mixedState.eulerData.length = mixedState.mtwCallbacks.length ∧
    (pollSensors mixedState).map (fun p => p.calls) =
      some [(0, MtwCall.dataAvailable), (0, MtwCall.getOldestPacket),
        (0, MtwCall.deleteOldestPacket), (1, MtwCall.dataAvailable),
        (2, MtwCall.dataAvailable), (2, MtwCall.getOldestPacket),
        (2, MtwCall.deleteOldestPacket)] ∧
    ∃ p, pollSensors mixedState = some p ∧
      p.mtwCallbacks.length = mixedState.mtwCallbacks.length ∧
      (∀ s2, tick id mixedState = some s2 → s2.mtwCallbacks = p.mtwCallbacks) ∧
      ∀ (i : Nat) (cb : MtwCallback Int), mixedState.mtwCallbacks[i]? = some cb →
        (cb.dataAvailable = true →
          ∃ oldest rest, cb.m_packetBuffer = oldest :: rest ∧
            cb.getOldestPacket = some oldest ∧
            p.mtwCallbacks[i]? = some cb.deleteOldestPacket ∧
            cb.deleteOldestPacket.m_packetBuffer = rest ∧
            cb.deleteOldestPacket.m_packetBuffer.length + 1 = cb.m_packetBuffer.length ∧
            callsOn i p.calls =
              [MtwCall.dataAvailable, MtwCall.getOldestPacket, MtwCall.deleteOldestPacket]) ∧
        (cb.dataAvailable = false →
          p.mtwCallbacks[i]? = some cb ∧
          callsOn i p.calls = [MtwCall.dataAvailable] ∧
          (i, MtwCall.getOldestPacket) ∉ p.calls ∧
          (i, MtwCall.deleteOldestPacket) ∉ p.calls) :=
  ⟨by decide, by decide, C7_poll_removes_oldest id mixedState (by decide)⟩

/-- C8: FIFO law of the packet queue. The packets pushed onto an empty queue are all in the
queue, in the order pushed; `k` read-and-advance steps yield the first `k` of them in that
order and leave the others, so `n` steps yield all `n` and empty the queue; and after any
sequence of pushes and pops on a fresh queue, the pushed packets are the popped packets
followed by the queue's content, and `dataAvailable` is false exactly when the number of
pushes equals the number of successful pops. -/
theorem C8_fifo_law {α : Type} (packets : List (XsDataPacket α)) (k : Nat)
    (calls : List (QueueCall α)) :
    ((⟨[]⟩ : MtwCallback α).pushAll packets).m_packetBuffer = packets ∧
    MtwCallback.drain k ((⟨[]⟩ : MtwCallback α).pushAll packets) =
      (packets.take k, ⟨packets.drop k⟩) ∧
    MtwCallback.drain packets.length ((⟨[]⟩ : MtwCallback α).pushAll packets) =
      (packets, ⟨[]⟩) ∧
    (QueueTrace.run calls).pushed =
      (QueueTrace.run calls).popped ++ (QueueTrace.run calls).queue.m_packetBuffer ∧
    ((QueueTrace.run calls).queue.dataAvailable = false ↔
      (QueueTrace.run calls).pushed.length = (QueueTrace.run calls).popped.length) := by
  have hpush : ((⟨[]⟩ : MtwCallback α).pushAll packets).m_packetBuffer = packets := by
    rw [pushAll_buffer]
    rfl
  have hdrain : ∀ n : Nat, MtwCallback.drain n ((⟨[]⟩ : MtwCallback α).pushAll packets) =
      (packets.take n, ⟨packets.drop n⟩) := by
    intro n
    have hq : (⟨[]⟩ : MtwCallback α).pushAll packets = ⟨packets⟩ :=
      congrArg MtwCallback.mk hpush
    rw [hq]
    exact drain_buffer n packets
  have hinv : (QueueTrace.run calls).pushed =
      (QueueTrace.run calls).popped ++ (QueueTrace.run calls).queue.m_packetBuffer :=
    queueTrace_foldl_inv calls ⟨⟨[]⟩, [], []⟩ rfl
  refine ⟨hpush, hdrain k, ?_, hinv, ?_⟩
  · rw [hdrain]
    simp
  · rw [hinv]
    cases hb : (QueueTrace.run calls).queue.m_packetBuffer with
    | nil => simp [MtwCallback.dataAvailable, hb]
    | cons packet rest => simp [MtwCallback.dataAvailable, hb]

/-- C9: connectivity registry. After any sequence of notifications applied in order to an
empty registry, `getWirelessMTWs` contains a device exactly when the last notification for
that device had the connected state; a connected notification for a device already present
and a non-connected notification for an absent device leave the set unchanged. -/
theorem C9_registry_last_state {δ : Type} [DecidableEq δ]
    (notifications : List (δ × XsConnectivityState)) (dev : δ)
    (cb : WirelessMasterCallback δ) (st : XsConnectivityState) :
    (dev ∈ ((⟨∅⟩ : WirelessMasterCallback δ).notifyAll notifications).getWirelessMTWs ↔
      lastNotified dev notifications = some XsConnectivityState.Connected) ∧
    (dev ∈ cb.getWirelessMTWs →
      (cb.onConnectivityChanged dev XsConnectivityState.Connected).getWirelessMTWs =
        cb.getWirelessMTWs) ∧
    (st ≠ XsConnectivityState.Connected → dev ∉ cb.getWirelessMTWs →
      (cb.onConnectivityChanged dev st).getWirelessMTWs = cb.getWirelessMTWs) := by
  refine ⟨?_, ?_, ?_⟩
  · rw [mem_notifyAll]
    simp [WirelessMasterCallback.getWirelessMTWs]
  · intro hmem
    simp only [WirelessMasterCallback.getWirelessMTWs] at hmem
    simp [WirelessMasterCallback.onConnectivityChanged, WirelessMasterCallback.getWirelessMTWs,
      Finset.insert_eq_of_mem hmem]
  · intro hst hmem
    simp only [WirelessMasterCallback.getWirelessMTWs] at hmem
    simp [WirelessMasterCallback.onConnectivityChanged, WirelessMasterCallback.getWirelessMTWs,
      hst, Finset.erase_eq_of_not_mem hmem]

/-- Witness of C9: after `1` connects, `2` connects and `1` disconnects, the registry holds
`2` and not `1`; the two no-op cases at the registry `{2}`. -/
theorem C9_registry_last_state_witness :
    (2 ∈ ((⟨∅⟩ : WirelessMasterCallback Nat).notifyAll
        [(1, XsConnectivityState.Connected), (2, XsConnectivityState.Connected),
          (1, XsConnectivityState.Disconnected)]).getWirelessMTWs) ∧
    (2 ∈ (⟨{2}⟩ : WirelessMasterCallback Nat).getWirelessMTWs ∧
      ((⟨{2}⟩ : WirelessMasterCallback Nat).onConnectivityChanged 2
        XsConnectivityState.Connected).getWirelessMTWs =
        (⟨{2}⟩ : WirelessMasterCallback Nat).getWirelessMTWs) ∧
    (XsConnectivityState.Disconnected ≠ XsConnectivityState.Connected ∧
      1 ∉ (⟨{2}⟩ : WirelessMasterCallback Nat).getWirelessMTWs ∧
      ((⟨{2}⟩ : WirelessMasterCallback Nat).onConnectivityChanged 1
        XsConnectivityState.Disconnected).getWirelessMTWs =
        (⟨{2}⟩ : WirelessMasterCallback Nat).getWirelessMTWs) :=
  ⟨(C9_registry_last_state [(1, XsConnectivityState.Connected),
      (2, XsConnectivityState.Connected), (1, XsConnectivityState.Disconnected)] 2 ⟨{2}⟩
      XsConnectivityState.Disconnected).1.2 (by decide),
    ⟨by decide, (C9_registry_last_state [] 2 ⟨{2}⟩ XsConnectivityState.Disconnected).2.1
      (by decide)⟩,
    ⟨by decide, by decide,
      (C9_registry_last_state [] 1 ⟨{2}⟩ XsConnectivityState.Disconnected).2.2 (by decide)
        (by decide)⟩⟩

/-- C10: the state at the entry of the loop is well formed and every tick that completes
keeps it so; on a well-formed state the row index `printCounter % 25` is a valid index of
the 25-row batch and the row has `nbchannels = 54` channels; the channel indices `0+3i`,
`1+3i`, `2+3i` written for the sensors `i < N` are all below `nbchannels` exactly when
`N ≤ 18`; with `N ≥ 19` sensor 18 is written at channel 54 or above, outside the row, and a
tick with new data faults on that write; with `N ≤ 18` every tick runs without fault. -/
theorem C10_channel_bounds {α β : Type} (narrow : α → β) (s : LoopState α β) (hwf : s.WF) :
    nbchannels = 54 ∧
    (∀ (euler0 : XsEuler α) (zero : β),
      (LoopState.init s.mtwCallbacks euler0 zero : LoopState α β).WF) ∧
    (∀ s2, tick narrow s = some s2 → s2.WF) ∧
    (s.printCounter % 25 < s.mychunk.length ∧ s.mychunk.length = 25 ∧
      ∃ row, s.mychunk[s.printCounter % 25]? = some row ∧ row.channel.length = nbchannels) ∧
    ((∀ i : Nat, i < s.mtwCallbacks.length →
        0 + i * 3 < nbchannels ∧ 1 + i * 3 < nbchannels ∧ 2 + i * 3 < nbchannels) ↔
      s.mtwCallbacks.length ≤ 18) ∧
    (19 ≤ s.mtwCallbacks.length →
      (∃ i : Nat, i < s.mtwCallbacks.length ∧ nbchannels ≤ 0 + i * 3) ∧
      ((∃ cb ∈ s.mtwCallbacks, cb.dataAvailable = true) → tick narrow s = none)) ∧
    (s.mtwCallbacks.length ≤ 18 → ∃ s2, tick narrow s = some s2) := by
  refine ⟨rfl, fun euler0 zero => init_wf _ euler0 zero, fun s2 ht => tick_wf narrow s s2 hwf ht,
    ⟨?_, hwf.2.1, wf_row s hwf⟩, ?_, ?_, ?_⟩
  · rw [hwf.2.1]
    exact Nat.mod_lt _ (by decide)
  · simp only [nbchannels]
    constructor
    · intro h
      by_contra hbig
      have := (h 18 (by omega)).1
      omega
    · intro h i hi
      omega
  · intro hbig
    refine ⟨⟨18, by omega, by simp [nbchannels]⟩, ?_⟩
    intro hdata
    exact tick_fault narrow s hwf hbig hdata
  · intro hfit
    by_cases hdata : ∃ cb ∈ s.mtwCallbacks, cb.dataAvailable = true
    · obtain ⟨p, chunk, row0, -, -, -, -, htick⟩ :=
        tick_of_data narrow s hwf (by simp only [nbchannels]; omega) hdata
      exact ⟨_, htick⟩
    · have hnone : ∀ cb ∈ s.mtwCallbacks, cb.dataAvailable = false := by
        intro cb hmem
        cases hd : cb.dataAvailable with
        | false => rfl
        | true => exact absurd ⟨cb, hmem, hd⟩ hdata
      exact ⟨s, tick_of_no_data narrow s hwf.1 hnone⟩

/-- Witness of C10 at `overfullState`, a well-formed state with 19 sensors, all with data:
the tick faults. -/
theorem C10_channel_bounds_witness :
    overfullState.WF ∧ 19 ≤ overfullState.mtwCallbacks.length ∧
    (∃ cb ∈ overfullState.mtwCallbacks, cb.dataAvailable = true) ∧
    (∃ i : Nat, i < overfullState.mtwCallbacks.length ∧ nbchannels ≤ 0 + i * 3) ∧
    tick id overfullState = none :=
  ⟨init_wf _ _ _, by decide, by decide,
    ((C10_channel_bounds id overfullState (init_wf _ _ _)).2.2.2.2.2.1 (by decide)).1,
    ((C10_channel_bounds id overfullState (init_wf _ _ _)).2.2.2.2.2.1 (by decide)).2
      (by decide)⟩

end XsensRaw
